import Mathlib

/-!
Verification of the note indexing and cross-linking engine of the
zero-friction-brain Obsidian plugin.  Every definition below is a shallow
embedding of a TypeScript function of the repository (file and line
references are given on each definition); theorems check the claims of the
specification against those definitions.
-/

namespace ZFB

/-! ## Luhmann-style identifier encoding (src/unnamed/part_000, toLuhmannId, lines 1301-1324)

The TypeScript loop keeps a `remaining` counter and a `level`; at even
levels it emits the digit `((remaining-1) % 9) + 1` and divides by 9, at odd
levels the letter for `(remaining-1) % 26` and divides by 26; the emitted
symbols are collected and reversed at the end.  `luhChars remaining level`
is the emitted symbol list in emission order (the pattern `r + 1` is the
positive value of `remaining`, so `r` stands for `remaining - 1`). -/
def luhChars : Nat → Nat → List Char
  | 0, _ => []
  | r + 1, level =>
    if level % 2 = 0 then
      Char.ofNat (48 + (r % 9 + 1)) :: luhChars (r / 9) (level + 1)
    else
      Char.ofNat (97 + r % 26) :: luhChars (r / 26) (level + 1)
  termination_by r _ => r
  decreasing_by
  · exact Nat.lt_succ_of_le (Nat.div_le_self r 9)
  · exact Nat.lt_succ_of_le (Nat.div_le_self r 26)

/-- Shallow embedding of `toLuhmannId` (src/unnamed/part_000 lines 1301-1324):
a non-positive counter returns "1", otherwise the emitted symbols are
reversed and joined. -/
def toLuhmannId (num : Int) : String :=
  if num ≤ 0 then "1" else String.mk (luhChars num.toNat 0).reverse

/-- Left inverse of `luhChars`: reads a symbol list back into the counter it
was emitted from.  Used only in proofs, to establish injectivity. -/
def luhDecode : List Char → Nat → Nat
  | [], _ => 0
  | c :: rest, level =>
    if level % 2 = 0 then
      9 * luhDecode rest (level + 1) + (c.toNat - 49) + 1
    else
      26 * luhDecode rest (level + 1) + (c.toNat - 97) + 1
  termination_by l _ => l.length

theorem char_toNat_ofNat_of_lt {n : Nat} (h : n < 55296) :
    (Char.ofNat n).toNat = n := by
  have hv : n.isValidChar := Or.inl h
  unfold Char.ofNat
  rw [dif_pos hv]
  rfl

theorem luhDecode_luhChars (r level : Nat) :
    luhDecode (luhChars r level) level = r := by
  induction r using Nat.strong_induction_on generalizing level with
  | _ r ih =>
    match r with
    | 0 => simp [luhChars, luhDecode]
    | r + 1 =>
      rw [luhChars]
      by_cases h : level % 2 = 0
      · rw [if_pos h, luhDecode, if_pos h,
          ih (r / 9) (Nat.lt_succ_of_le (Nat.div_le_self r 9)),
          char_toNat_ofNat_of_lt (by omega)]
        have h9 : r % 9 < 9 := Nat.mod_lt _ (by omega)
        have := Nat.div_add_mod r 9
        omega
      · rw [if_neg h, luhDecode, if_neg h,
          ih (r / 26) (Nat.lt_succ_of_le (Nat.div_le_self r 26)),
          char_toNat_ofNat_of_lt (by omega)]
        have h26 : r % 26 < 26 := Nat.mod_lt _ (by omega)
        have := Nat.div_add_mod r 26
        omega

theorem luhChars_injective {r s level : Nat}
    (h : luhChars r level = luhChars s level) : r = s := by
  have := luhDecode_luhChars r level
  rw [h, luhDecode_luhChars] at this
  omega

theorem toLuhmannId_ne {n m : Int} (hn : 1 ≤ n) (hm : 1 ≤ m) (hnm : n ≠ m) :
    toLuhmannId n ≠ toLuhmannId m := by
  intro h
  rw [toLuhmannId, toLuhmannId, if_neg (by omega), if_neg (by omega)] at h
  have hdata : (luhChars n.toNat 0).reverse = (luhChars m.toNat 0).reverse :=
    congrArg String.data h
  have hchars : luhChars n.toNat 0 = luhChars m.toNat 0 :=
    List.reverse_injective hdata
  have htn : n.toNat = m.toNat := luhChars_injective hchars
  have : n = m := by omega
  exact hnm this

/-- C2 The Luhmann-style encoding is deterministic, injective on positive
counters, and returns "1" on counters that are ≤ 0. -/
theorem toLuhmannId_injective_deterministic (n m : Int)
    (hn : 1 ≤ n) (hm : 1 ≤ m) (hnm : n ≠ m) :
    toLuhmannId n ≠ toLuhmannId m ∧
    toLuhmannId n = toLuhmannId n ∧
    ∀ k : Int, k ≤ 0 → toLuhmannId k = "1" := by
  refine ⟨toLuhmannId_ne hn hm hnm, rfl, ?_⟩
  intro k hk
  rw [toLuhmannId, if_pos hk]

/-- Witness for C2: the encoding separates the concrete counters 1 and 2. -/
theorem toLuhmannId_injective_deterministic_witness :
    toLuhmannId 1 ≠ toLuhmannId 2 ∧
    toLuhmannId 1 = toLuhmannId 1 ∧
    ∀ k : Int, k ≤ 0 → toLuhmannId k = "1" :=
  toLuhmannId_injective_deterministic 1 2 (by decide) (by decide) (by decide)

/-! ## Decimal rendering and the date-sequence allocator
(src/unnamed/part_000, generateZKId lines 1274-1296, initializeZKCounters
lines 1245-1269) -/

/-- Decimal rendering of a natural number, most significant digit first;
models JS Number.prototype.toString applied to the sequence counter. -/
def natDigits (n : Nat) : List Char :=
  if h : n < 10 then [Char.ofNat (48 + n)]
  else natDigits (n / 10) ++ [Char.ofNat (48 + n % 10)]
  termination_by n
  decreasing_by exact Nat.div_lt_self (by omega) (by omega)

/-- Value of a digit string read back as a decimal number; also models
parseInt(_, 10) on an all-digit capture.  Left inverse of natDigits. -/
def decValue (l : List Char) : Nat :=
  l.foldl (fun a c => 10 * a + (c.toNat - 48)) 0

theorem decValue_append_digit (l : List Char) (c : Char) :
    decValue (l ++ [c]) = 10 * decValue l + (c.toNat - 48) := by
  simp [decValue, List.foldl_append]

theorem decValue_natDigits (n : Nat) : decValue (natDigits n) = n := by
  induction n using Nat.strong_induction_on with
  | _ n ih =>
    by_cases h : n < 10
    · rw [natDigits, dif_pos h]
      simp [decValue, char_toNat_ofNat_of_lt (by omega : 48 + n < 55296)]
    · rw [natDigits, dif_neg h, decValue_append_digit,
        ih (n / 10) (Nat.div_lt_self (by omega) (by omega)),
        char_toNat_ofNat_of_lt (by omega : 48 + n % 10 < 55296)]
      have := Nat.div_add_mod n 10
      omega

/-- Model of count.toString().padStart(3, "0") at part_000 line 1285. -/
def pad3Chars (n : Nat) : List Char :=
  List.replicate (3 - (natDigits n).length) '0' ++ natDigits n

theorem decValue_replicate_zero (k : Nat) (l : List Char) :
    decValue (List.replicate k '0' ++ l) = decValue l := by
  induction k with
  | zero => rfl
  | succ k ih =>
    rw [List.replicate_succ, List.cons_append]
    simpa [decValue] using ih

theorem decValue_pad3Chars (n : Nat) : decValue (pad3Chars n) = n := by
  rw [pad3Chars, decValue_replicate_zero, decValue_natDigits]

theorem pad3Chars_injective {a b : Nat} (h : pad3Chars a = pad3Chars b) :
    a = b := by
  have := decValue_pad3Chars a
  rw [h, decValue_pad3Chars] at this
  omega

/-- State of the per-date sequence allocator: the zkDailyCounter JS Map
(part_000 line 411) read through .get(date) || 0, i.e. a total function
that is 0 on absent dates. -/
def DailyMap := String → Nat

/-- Model of zkDailyCounter.set(date, v). -/
def DailyMap.set (m : DailyMap) (d : String) (v : Nat) : DailyMap :=
  fun q => if q = d then v else m q

/-- Date-sequence branch of generateZKId (part_000 lines 1281-1286).  The
current date string is a parameter (the code derives it from the clock);
the result is the produced identifier together with the updated map. -/
def generateZKIdDateSeq (m : DailyMap) (today : String) : String × DailyMap :=
  let count := m today + 1
  (String.mk (today.data ++ '-' :: pad3Chars count), m.set today count)

/-- Whether a character is an ASCII decimal digit (regex \d). -/
def isDigitChar (c : Char) : Bool := 48 ≤ c.toNat && c.toNat ≤ 57

/-- Last path component: models path.split("/").pop() || "" at part_000
line 1251 (the characters after the last slash). -/
def basenameChars (p : List Char) : List Char :=
  (p.reverse.takeWhile (fun c => c != '/')).reverse

/-- Model of matching fileName against /^(\d{8})-(\d{3})/ and applying
parseInt to the second capture (part_000 lines 1254-1257): eight digits, a
dash and three digits at the very start of the name. -/
def matchDateSeq (s : List Char) : Option (String × Nat) :=
  if 12 ≤ s.length ∧ (s.take 8).all isDigitChar ∧ (s.drop 8).take 1 = ['-']
      ∧ ((s.drop 9).take 3).all isDigitChar then
    some (String.mk (s.take 8), decValue ((s.drop 9).take 3))
  else none

/-- Loop body of the date-sequence part of initializeZKCounters (part_000
lines 1253-1262): parse the basename and keep the larger sequence number
for the parsed date. -/
def dailyStep (m : DailyMap) (path : String) : DailyMap :=
  match matchDateSeq (basenameChars path.data) with
  | some (d, seq) => if m d < seq then m.set d seq else m
  | none => m

/-- Date-sequence part of initializeZKCounters (part_000 lines 1250-1262):
folds over the Zettel paths of the index, keeping the highest parsed
sequence number per date. -/
def initZKDailyCounter (paths : List String) : DailyMap :=
  paths.foldl dailyStep (fun _ => 0)

/-- C5 Two consecutive date-sequence allocations on the same date return
the zero-padded identifiers date-(k+1) and date-(k+2), which are distinct;
and reseeding from an index holding 20260102-001 … 20260102-005 makes the
next allocation on that date return 20260102-006. -/
theorem dateSeq_consecutive_and_reseed :
    (∀ (m : DailyMap) (d : String),
      (generateZKIdDateSeq m d).1 = String.mk (d.data ++ '-' :: pad3Chars (m d + 1)) ∧
      (generateZKIdDateSeq (generateZKIdDateSeq m d).2 d).1
        = String.mk (d.data ++ '-' :: pad3Chars (m d + 2)) ∧
      (generateZKIdDateSeq m d).1 ≠ (generateZKIdDateSeq (generateZKIdDateSeq m d).2 d).1) ∧
    (generateZKIdDateSeq
        (initZKDailyCounter
          ["10 Zettelkasten/20260102-001 a.md", "10 Zettelkasten/20260102-002 b.md",
           "10 Zettelkasten/20260102-003 c.md", "10 Zettelkasten/20260102-004 d.md",
           "10 Zettelkasten/20260102-005 e.md"])
        "20260102").1 = "20260102-006" := by
  constructor
  · intro m d
    refine ⟨rfl, ?_, ?_⟩
    · show String.mk (d.data ++ '-' :: pad3Chars ((DailyMap.set m d (m d + 1)) d + 1)) = _
      simp [DailyMap.set]
    · intro h
      have hdata := congrArg String.data h
      simp only [generateZKIdDateSeq, DailyMap.set, if_pos rfl] at hdata
      have h2 : '-' :: pad3Chars (m d + 1) = '-' :: pad3Chars (m d + 1 + 1) :=
        List.append_cancel_left hdata
      have h3 : pad3Chars (m d + 1) = pad3Chars (m d + 1 + 1) := by
        injection h2
      have := pad3Chars_injective h3
      omega
  · have hX : initZKDailyCounter
        ["10 Zettelkasten/20260102-001 a.md", "10 Zettelkasten/20260102-002 b.md",
         "10 Zettelkasten/20260102-003 c.md", "10 Zettelkasten/20260102-004 d.md",
         "10 Zettelkasten/20260102-005 e.md"] "20260102" = 5 := by decide
    have hd : natDigits 6 = ['6'] := by
      rw [natDigits, dif_pos (by omega)]
    have hp : pad3Chars 6 = ['0', '0', '6'] := by
      rw [pad3Chars, hd]
      decide
    show String.mk _ = _
    rw [hX]
    norm_num [hp]

/-! ## Luhmann counter seeding and freshness of allocated identifiers -/

/-- Luhmann part of initializeZKCounters (part_000 lines 1264-1266): every
loop iteration sets the counter to max(counter, zettelIndex.size), starting
from the field initializer 0 (line 412); a non-empty index therefore seeds
the counter with the number of indexed Zettel notes, regardless of which
identifiers those notes actually carry. -/
def initZKLuhmannCounter (paths : List String) : Nat :=
  paths.foldl (fun c _ => max c paths.length) 0

/-- Luhmann branch of generateZKId (part_000 lines 1288-1291): increments
the counter and encodes the incremented value. -/
def generateZKIdLuhmann (counter : Nat) : String × Nat :=
  (toLuhmannId ((counter : Int) + 1), counter + 1)

/-- Identifier portion of an indexed Zettel path.  The create path names
Zettel files as "id title.md" (part_000 line 1375), so the identifier an
existing note carries is its basename up to the first space. -/
def zkIdOfPath (p : String) : String :=
  String.mk ((basenameChars p.data).takeWhile (fun c => c != ' '))

/-- C4 counterexample: an index holding a single Zettel whose identifier is
"2" seeds the Luhmann counter with 1 (the Zettel count), and the next
generated identifier is toLuhmannId 2 = "2" — equal to an identifier
already present in the index, refuting the claim that every scheme always
returns fresh identifiers. -/
theorem luhmann_reissues_existing_id :
    (generateZKIdLuhmann (initZKLuhmannCounter ["10 Zettelkasten/2 old.md"])).1
      = zkIdOfPath "10 Zettelkasten/2 old.md" := by
  have h1 : initZKLuhmannCounter ["10 Zettelkasten/2 old.md"] = 1 := by decide
  have h2 : zkIdOfPath "10 Zettelkasten/2 old.md" = "2" := by decide
  rw [generateZKIdLuhmann, h1, h2]
  show toLuhmannId 2 = "2"
  rw [toLuhmannId, if_neg (by omega)]
  simp [luhChars]

/-! ### Support lemmas for the amended freshness statement -/

theorem natDigits_length_le (k : Nat) :
    1 ≤ k → ∀ n, n < 10 ^ k → (natDigits n).length ≤ k := by
  induction k with
  | zero => omega
  | succ k ih =>
    intro _ n hn
    by_cases h : n < 10
    · rw [natDigits, dif_pos h]
      simp
    · rw [natDigits, dif_neg h]
      have hk0 : k ≠ 0 := by
        intro h0
        subst h0
        simp [pow_succ, pow_zero] at hn
        omega
      have hdiv : n / 10 < 10 ^ k := by
        rw [Nat.div_lt_iff_lt_mul (by omega : 0 < 10)]
        calc n < 10 ^ (k + 1) := hn
          _ = 10 ^ k * 10 := by rw [pow_succ]
      have := ih (by omega) (n / 10) hdiv
      simp only [List.length_append, List.length_cons, List.length_nil]
      omega

theorem pad3Chars_length {s : Nat} (hs : s ≤ 999) : (pad3Chars s).length = 3 := by
  have := natDigits_length_le 3 (by omega) s (by omega)
  simp only [pad3Chars, List.length_append, List.length_replicate]
  omega

theorem natDigits_all_digit (n : Nat) : (natDigits n).all isDigitChar = true := by
  induction n using Nat.strong_induction_on with
  | _ n ih =>
    by_cases h : n < 10
    · rw [natDigits, dif_pos h]
      simp [isDigitChar, char_toNat_ofNat_of_lt (show 48 + n < 55296 by omega)]
      omega
    · rw [natDigits, dif_neg h, List.all_append]
      have h10 : n % 10 < 10 := Nat.mod_lt _ (by omega)
      rw [ih (n / 10) (Nat.div_lt_self (by omega) (by omega))]
      simp [isDigitChar, char_toNat_ofNat_of_lt (show 48 + n % 10 < 55296 by omega)]
      omega

theorem pad3Chars_all_digit (s : Nat) : (pad3Chars s).all isDigitChar = true := by
  rw [pad3Chars, List.all_append, natDigits_all_digit, Bool.and_true, List.all_eq_true]
  intro c hc
  rw [List.eq_of_mem_replicate hc]
  decide

theorem isDigitChar_ne_space {c : Char} (h : isDigitChar c = true) : (c != ' ') = true := by
  simp only [bne_iff_ne, ne_eq]
  intro he
  subst he
  simp [isDigitChar] at h

theorem matchDateSeq_canon (d : List Char) (s : Nat) (rest : List Char)
    (hd8 : d.length = 8) (hdall : d.all isDigitChar = true)
    (_hs1 : 1 ≤ s) (hs : s ≤ 999) :
    matchDateSeq (d ++ '-' :: (pad3Chars s ++ ' ' :: rest)) = some (String.mk d, s) := by
  have hp3 : (pad3Chars s).length = 3 := pad3Chars_length hs
  have ht8 : (d ++ '-' :: (pad3Chars s ++ ' ' :: rest)).take 8 = d := by
    rw [← hd8]
    exact List.take_left _ _
  have hd9 : (d ++ '-' :: (pad3Chars s ++ ' ' :: rest)).drop 8
      = '-' :: (pad3Chars s ++ ' ' :: rest) := by
    rw [← hd8]
    exact List.drop_left _ _
  have hdrop9 : (d ++ '-' :: (pad3Chars s ++ ' ' :: rest)).drop 9
      = pad3Chars s ++ ' ' :: rest := by
    have h91 : (9 : Nat) = 8 + 1 := rfl
    rw [h91, ← List.drop_drop, hd9]
    simp
  have ht3 : ((d ++ '-' :: (pad3Chars s ++ ' ' :: rest)).drop 9).take 3 = pad3Chars s := by
    rw [hdrop9, ← hp3]
    exact List.take_left _ _
  rw [matchDateSeq, if_pos, ht8, ht3, decValue_pad3Chars]
  refine ⟨?_, ?_, ?_, ?_⟩
  · simp only [List.length_append, List.length_cons]
    omega
  · rw [ht8]
    exact hdall
  · rw [hd9]
    rfl
  · rw [ht3]
    exact pad3Chars_all_digit s

theorem dailyStep_ge (m : DailyMap) (path q : String) : m q ≤ dailyStep m path q := by
  unfold dailyStep
  cases hm : matchDateSeq (basenameChars path.data) with
  | none => exact le_refl _
  | some ds =>
    obtain ⟨d, s⟩ := ds
    dsimp only
    split
    · rename_i hlt
      simp only [DailyMap.set]
      split
      · rename_i hq
        subst hq
        omega
      · exact le_refl _
    · exact le_refl _

theorem foldl_dailyStep_ge (paths : List String) :
    ∀ (m : DailyMap) (q : String), m q ≤ paths.foldl dailyStep m q := by
  induction paths with
  | nil => intro m q; exact le_refl _
  | cons a t ih =>
    intro m q
    exact le_trans (dailyStep_ge m a q) (ih (dailyStep m a) q)

theorem foldl_dailyStep_seq_le (paths : List String) :
    ∀ (m : DailyMap) (p : String), p ∈ paths →
    ∀ (d : String) (s : Nat), matchDateSeq (basenameChars p.data) = some (d, s) →
    s ≤ paths.foldl dailyStep m d := by
  induction paths with
  | nil =>
    intro m p hp
    simp at hp
  | cons a t ih =>
    intro m p hp d s hm
    rcases List.mem_cons.mp hp with h | h
    · subst h
      refine le_trans ?_ (foldl_dailyStep_ge t (dailyStep m p) d)
      unfold dailyStep
      rw [hm]
      dsimp only
      split
      · simp [DailyMap.set]
      · rename_i hnlt
        omega
    · exact ih (dailyStep m a) p h d s hm

theorem takeWhile_append_all {q : Char → Bool} (l₁ l₂ : List Char)
    (h : l₁.all q = true) :
    (l₁ ++ l₂).takeWhile q = l₁ ++ l₂.takeWhile q := by
  induction l₁ with
  | nil => rfl
  | cons c t ih =>
    rw [List.all_cons, Bool.and_eq_true] at h
    simp [List.cons_append, List.takeWhile_cons, h.1, ih h.2]

/-- Canonical date-sequence shape of an indexed Zettel path: the basename
is an eight-digit date, a dash, the zero-padded sequence number (1..999), a
space and the remaining title text. -/
def DateCanonical (p : String) : Prop :=
  ∃ (d : List Char) (s : Nat) (rest : List Char),
    basenameChars p.data = d ++ '-' :: (pad3Chars s ++ ' ' :: rest) ∧
    d.length = 8 ∧ d.all isDigitChar = true ∧ 1 ≤ s ∧ s ≤ 999

theorem zkIdOfPath_canon (p : String) (d : List Char) (s : Nat) (rest : List Char)
    (hb : basenameChars p.data = d ++ '-' :: (pad3Chars s ++ ' ' :: rest))
    (hdall : d.all isDigitChar = true) :
    zkIdOfPath p = String.mk (d ++ '-' :: pad3Chars s) := by
  rw [zkIdOfPath, hb]
  congr 1
  have h1 : d ++ '-' :: (pad3Chars s ++ ' ' :: rest)
      = (d ++ '-' :: pad3Chars s) ++ (' ' :: rest) := by
    simp
  rw [h1, takeWhile_append_all]
  · simp [List.takeWhile_cons]
  · rw [List.all_append, List.all_cons]
    have hd' : d.all (fun c => c != ' ') = true := by
      rw [List.all_eq_true] at hdall ⊢
      intro c hc
      exact isDigitChar_ne_space (hdall c hc)
    have hp' : (pad3Chars s).all (fun c => c != ' ') = true := by
      have hall := pad3Chars_all_digit s
      rw [List.all_eq_true] at hall ⊢
      intro c hc
      exact isDigitChar_ne_space (hall c hc)
    rw [hd', hp']
    decide

theorem foldl_max_const {α : Type} (l : List α) (L : Nat) :
    ∀ a : Nat, l.foldl (fun c _ => max c L) a = if l.isEmpty then a else max a L := by
  induction l with
  | nil => intro a; rfl
  | cons x t ih =>
    intro a
    rw [List.foldl_cons, ih (max a L)]
    by_cases ht : t.isEmpty
    · rw [if_pos ht]
      simp
    · rw [if_neg ht]
      simp only [List.isEmpty_cons, if_neg]
      rw [max_assoc, max_self]
      simp

/-- C4 amended: freshness of generated identifiers holds for the
date-sequence scheme whenever the indexed Zettel identifiers are canonical
(eight-digit date, dash, three-digit sequence), and for the Luhmann scheme
whenever the indexed identifiers are exactly Luhmann encodings of counters
up to the Zettel count; the unrestricted claim over all three schemes is
refuted by the counterexample (and the timestamp scheme reads the wall
clock, performing no deduplication at all). -/
theorem generateZKId_fresh_for_canonical_index :
    (∀ (paths : List String) (d0 : String),
        (∀ p ∈ paths, DateCanonical p) → d0.data.length = 8 →
        ∀ p ∈ paths,
          (generateZKIdDateSeq (initZKDailyCounter paths) d0).1 ≠ zkIdOfPath p) ∧
    (∀ paths : List String,
        (∀ p ∈ paths, ∃ i : Int, 1 ≤ i ∧ i ≤ (paths.length : Int) ∧
          zkIdOfPath p = toLuhmannId i) →
        ∀ p ∈ paths,
          (generateZKIdLuhmann (initZKLuhmannCounter paths)).1 ≠ zkIdOfPath p) := by
  constructor
  · intro paths d0 hcanon hd0 p hp heq
    obtain ⟨d, s, rest, hb, hd8, hdall, hs1, hs⟩ := hcanon p hp
    rw [zkIdOfPath_canon p d s rest hb hdall] at heq
    have hdata := congrArg String.data heq
    simp only [generateZKIdDateSeq] at hdata
    have hlen : d0.data.length = d.length := by rw [hd0, hd8]
    obtain ⟨hpre, hsuf⟩ := List.append_inj hdata hlen
    have hps : pad3Chars (initZKDailyCounter paths d0 + 1) = pad3Chars s := by
      injection hsuf
    have hks := pad3Chars_injective hps
    have hmk : String.mk d = d0 := by rw [← hpre]
    have hmatch := matchDateSeq_canon d s rest hd8 hdall hs1 hs
    rw [← hb] at hmatch
    have hseed := foldl_dailyStep_seq_le paths (fun _ => 0) p hp (String.mk d) s hmatch
    rw [hmk] at hseed
    rw [show paths.foldl dailyStep (fun _ => 0) = initZKDailyCounter paths from rfl]
      at hseed
    omega
  · intro paths hl p hp heq
    obtain ⟨i, hi1, hiL, hid⟩ := hl p hp
    have hne : paths.isEmpty = false := by
      cases paths with
      | nil => simp at hp
      | cons a t => rfl
    have hinit : initZKLuhmannCounter paths = paths.length := by
      rw [initZKLuhmannCounter, foldl_max_const, hne]
      simp
    rw [generateZKIdLuhmann, hinit, hid] at heq
    have hgt : ((paths.length : Int) + 1) ≠ i := by omega
    exact toLuhmannId_ne (by omega) hi1 hgt heq

/-- Witness for the amended C4 statement on a concrete one-note index for
each of the two covered schemes. -/
theorem generateZKId_fresh_for_canonical_index_witness :
    (generateZKIdDateSeq (initZKDailyCounter ["10 Zettelkasten/20260102-001 a.md"])
        "20260103").1
      ≠ zkIdOfPath "10 Zettelkasten/20260102-001 a.md" ∧
    (generateZKIdLuhmann (initZKLuhmannCounter ["10 Zettelkasten/1 a.md"])).1
      ≠ zkIdOfPath "10 Zettelkasten/1 a.md" := by
  constructor
  · refine generateZKId_fresh_for_canonical_index.1
      ["10 Zettelkasten/20260102-001 a.md"] "20260103" ?_ (by decide)
      "10 Zettelkasten/20260102-001 a.md" (by decide)
    intro p hp
    have hp' : p = "10 Zettelkasten/20260102-001 a.md" := by simpa using hp
    subst hp'
    refine ⟨"20260102".data, 1, "a.md".data, ?_, by decide, by decide, by omega, by omega⟩
    have hpad : pad3Chars 1 = ['0', '0', '1'] := by
      rw [pad3Chars, natDigits, dif_pos (by omega)]
      decide
    rw [hpad]
    decide
  · refine generateZKId_fresh_for_canonical_index.2
      ["10 Zettelkasten/1 a.md"] ?_ "10 Zettelkasten/1 a.md" (by decide)
    intro p hp
    have hp' : p = "10 Zettelkasten/1 a.md" := by simpa using hp
    subst hp'
    refine ⟨1, by omega, by norm_num, ?_⟩
    have h1 : toLuhmannId 1 = "1" := by
      rw [toLuhmannId, if_neg (by omega)]
      simp [luhChars]
    rw [h1]
    decide

/-! ## Keyword prefilter (src/unnamed/part_003, filterByKeywords lines
460-505 and filterZettelsByKeywords lines 672-718) -/

/-- Record of the note index (interface NoteIndex, src/unnamed/part_001
lines 125-132); the optional type tag distinguishes Zettel notes. -/
structure NoteIdx where
  path : String
  title : String
  keywords : List String
  type : Option String
deriving DecidableEq

/-- Lower-casing of a string: models String.prototype.toLowerCase. -/
def lowerStr (s : String) : String := String.mk (s.data.map Char.toLower)

/-- Substring test: models a.includes(b). -/
def strIncludes (a b : String) : Bool := decide (b.data <:+: a.data)

/-- Symmetric case-insensitive keyword match of part_003 lines 476-488: the
stored keyword is lower-cased and matches when it equals, contains or is
contained in the (already lower-cased) search keyword. -/
def kwMatches (noteKeyword searchKeyword : String) : Bool :=
  let lowerKeyword := lowerStr noteKeyword
  lowerKeyword == searchKeyword
    || strIncludes lowerKeyword searchKeyword
    || strIncludes searchKeyword lowerKeyword

/-- Insertion-order set of strings: models new Set(xs) iterated in
insertion order (part_003 line 465). -/
def jsSetOfStrings (l : List String) : List String :=
  l.foldl (fun acc k => if k ∈ acc then acc else acc ++ [k]) []

/-- One candidate produced by the prefilter: the index entry (Map key and
record) together with its matched keywords (part_003 lines 492-497). -/
structure KwCandidate where
  path : String
  note : NoteIdx
  matchedKeywords : List String
deriving DecidableEq

/-- Truthiness-aware exclusion test of part_003 line 469:
excludePath && path === excludePath (an absent or empty excludePath
excludes nothing, the empty string being falsy). -/
def excludeHit : Option String → String → Bool
  | some e, p => e != "" && p == e
  | none, _ => false

/-- Stable descending insertion by a sort key: models the effect of
Array.prototype.sort with comparator (a, b) => key(b) - key(a), whose
result is ordered by non-increasing key with ties keeping original order. -/
def insertDescBy {α β : Type} [LinearOrder β] (key : α → β) (x : α) :
    List α → List α
  | [] => [x]
  | y :: t => if key y < key x then x :: y :: t else y :: insertDescBy key x t

/-- Full stable descending sort built from insertDescBy. -/
def sortDescBy {α β : Type} [LinearOrder β] (key : α → β) (l : List α) : List α :=
  l.foldr (insertDescBy key) []

/-- Candidate collection shared verbatim by filterByKeywords (part_003
lines 464-498) and filterZettelsByKeywords (lines 677-711): skip the
excluded path and keyword-less records, keep entries with at least one
matched keyword. -/
def collectCandidates (keywordSet : List String) (excludePath : Option String)
    (index : List (String × NoteIdx)) : List KwCandidate :=
  index.filterMap (fun e =>
    if excludeHit excludePath e.1 then none
    else if e.2.keywords.length = 0 then none
    else
      let matched := e.2.keywords.filter
        (fun nk => keywordSet.any (fun sk => kwMatches nk sk))
      if matched.isEmpty then none
      else some ⟨e.1, e.2, matched⟩)

/-- Shallow embedding of filterByKeywords (part_003 lines 460-505): collect
candidates over the whole index, sort by descending matched-keyword count,
return the top 10. -/
def filterByKeywords (keywords : List String) (excludePath : Option String)
    (index : List (String × NoteIdx)) : List KwCandidate :=
  let keywordSet := jsSetOfStrings (keywords.map lowerStr)
  (sortDescBy (fun c => c.matchedKeywords.length)
    (collectCandidates keywordSet excludePath index)).take 10

/-- The Zettel-only index of getZettelIndex (part_003 lines 596-604). -/
def getZettelIndex (index : List (String × NoteIdx)) : List (String × NoteIdx) :=
  index.filter (fun e => e.2.type == some "zettel")

/-- Shallow embedding of filterZettelsByKeywords (part_003 lines 672-718):
identical body to filterByKeywords, scanning the supplied Zettel index. -/
def filterZettelsByKeywords (keywords : List String)
    (zettelIndex : List (String × NoteIdx)) (excludePath : Option String) :
    List KwCandidate :=
  let keywordSet := jsSetOfStrings (keywords.map lowerStr)
  (sortDescBy (fun c => c.matchedKeywords.length)
    (collectCandidates keywordSet excludePath zettelIndex)).take 10

theorem mem_insertDescBy {α β : Type} [LinearOrder β] (key : α → β) (x a : α)
    (l : List α) : a ∈ insertDescBy key x l ↔ a = x ∨ a ∈ l := by
  induction l with
  | nil => simp [insertDescBy]
  | cons y t ih =>
    rw [insertDescBy]
    split
    · simp
    · simp only [List.mem_cons, ih]
      tauto

theorem mem_sortDescBy {α β : Type} [LinearOrder β] (key : α → β) (l : List α)
    (a : α) : a ∈ sortDescBy key l ↔ a ∈ l := by
  induction l with
  | nil => simp [sortDescBy]
  | cons x t ih =>
    show a ∈ insertDescBy key x (sortDescBy key t) ↔ _
    rw [mem_insertDescBy]
    simp [ih]

theorem pairwise_insertDescBy {α β : Type} [LinearOrder β] (key : α → β) (x : α)
    (l : List α) (h : l.Pairwise (fun a b => key b ≤ key a)) :
    (insertDescBy key x l).Pairwise (fun a b => key b ≤ key a) := by
  induction l with
  | nil => simp [insertDescBy]
  | cons y t ih =>
    rw [List.pairwise_cons] at h
    rw [insertDescBy]
    split
    · rename_i hlt
      rw [List.pairwise_cons]
      refine ⟨?_, List.pairwise_cons.mpr h⟩
      intro z hz
      rcases List.mem_cons.mp hz with h1 | h1
      · subst h1
        exact le_of_lt hlt
      · exact le_trans (h.1 z h1) (le_of_lt hlt)
    · rename_i hnlt
      rw [List.pairwise_cons]
      refine ⟨?_, ih h.2⟩
      intro z hz
      rcases (mem_insertDescBy key x z t).mp hz with h1 | h1
      · subst h1
        exact le_of_not_lt hnlt
      · exact h.1 z h1

theorem pairwise_sortDescBy {α β : Type} [LinearOrder β] (key : α → β)
    (l : List α) :
    (sortDescBy key l).Pairwise (fun a b => key b ≤ key a) := by
  induction l with
  | nil => simp [sortDescBy]
  | cons x t ih => exact pairwise_insertDescBy key x _ ih

theorem mem_jsSetOfStrings (l : List String) (x : String) :
    x ∈ jsSetOfStrings l ↔ x ∈ l := by
  suffices h : ∀ acc,
      x ∈ l.foldl (fun acc k => if k ∈ acc then acc else acc ++ [k]) acc
        ↔ x ∈ acc ∨ x ∈ l by
    rw [jsSetOfStrings, h []]
    simp
  induction l with
  | nil => intro acc; simp
  | cons a t ih =>
    intro acc
    rw [List.foldl_cons]
    split
    · rename_i ha
      rw [ih acc]
      simp only [List.mem_cons]
      constructor
      · rintro (h1 | h1)
        · exact Or.inl h1
        · exact Or.inr (Or.inr h1)
      · rintro (h1 | h1 | h1)
        · exact Or.inl h1
        · subst h1
          exact Or.inl ha
        · exact Or.inr h1
    · rw [ih (acc ++ [a])]
      simp only [List.mem_append, List.mem_cons, List.mem_singleton]
      tauto

theorem prefilter_core (Q : List String) (ex : Option String)
    (I : List (String × NoteIdx)) :
    ((sortDescBy (fun c => c.matchedKeywords.length)
        (collectCandidates (jsSetOfStrings (Q.map lowerStr)) ex I)).take 10).length ≤ 10 ∧
    ((sortDescBy (fun c => c.matchedKeywords.length)
        (collectCandidates (jsSetOfStrings (Q.map lowerStr)) ex I)).take 10).Pairwise
      (fun a b => b.matchedKeywords.length ≤ a.matchedKeywords.length) ∧
    ∀ c ∈ (sortDescBy (fun c => c.matchedKeywords.length)
        (collectCandidates (jsSetOfStrings (Q.map lowerStr)) ex I)).take 10,
      c.note.keywords ≠ [] ∧
      (∃ nk ∈ c.note.keywords, ∃ q ∈ Q, kwMatches nk (lowerStr q) = true) ∧
      ∀ e : String, ex = some e → e ≠ "" → c.path ≠ e := by
  refine ⟨List.length_take_le _ _, ?_, ?_⟩
  · exact ((pairwise_sortDescBy _ _).sublist (List.take_sublist _ _))
  · intro c hc
    have hc1 : c ∈ sortDescBy (fun c => c.matchedKeywords.length)
        (collectCandidates (jsSetOfStrings (Q.map lowerStr)) ex I) :=
      List.take_subset _ _ hc
    have hc2 : c ∈ collectCandidates (jsSetOfStrings (Q.map lowerStr)) ex I :=
      (mem_sortDescBy _ _ _).mp hc1
    rw [collectCandidates, List.mem_filterMap] at hc2
    obtain ⟨e, he, hfe⟩ := hc2
    by_cases h1 : excludeHit ex e.1 = true
    · rw [if_pos h1] at hfe
      exact absurd hfe (by simp)
    · rw [if_neg h1] at hfe
      by_cases h2 : e.2.keywords.length = 0
      · rw [if_pos h2] at hfe
        exact absurd hfe (by simp)
      · rw [if_neg h2] at hfe
        by_cases h3 : (e.2.keywords.filter
            (fun nk => (jsSetOfStrings (Q.map lowerStr)).any
              (fun sk => kwMatches nk sk))).isEmpty = true
        · rw [if_pos h3] at hfe
          exact absurd hfe (by simp)
        · rw [if_neg h3] at hfe
          have hc3 : c = ⟨e.1, e.2, e.2.keywords.filter
              (fun nk => (jsSetOfStrings (Q.map lowerStr)).any
                (fun sk => kwMatches nk sk))⟩ := by
            injection hfe with h
            exact h.symm
          subst hc3
          refine ⟨?_, ?_, ?_⟩
          · intro hnil
            rw [hnil] at h2
            simp at h2
          · have hne : (e.2.keywords.filter
                (fun nk => (jsSetOfStrings (Q.map lowerStr)).any
                  (fun sk => kwMatches nk sk))) ≠ [] := by
              intro hnil
              rw [hnil] at h3
              simp at h3
            obtain ⟨nk, hnk⟩ := List.exists_mem_of_ne_nil _ hne
            rw [List.mem_filter] at hnk
            refine ⟨nk, hnk.1, ?_⟩
            rw [List.any_eq_true] at hnk
            obtain ⟨sk, hsk, hmat⟩ := hnk.2
            rw [mem_jsSetOfStrings] at hsk
            rw [List.mem_map] at hsk
            obtain ⟨q, hq, hlq⟩ := hsk
            exact ⟨q, hq, by rw [← hlq] at hmat; exact hmat⟩
          · intro e0 hex he0
            subst hex
            rw [excludeHit] at h1
            simp only [Bool.and_eq_true, bne_iff_ne, ne_eq, beq_iff_eq] at h1
            intro hpe
            exact h1 ⟨he0, hpe⟩

/-- C3 Both keyword prefilters return at most 10 candidates, ordered by
non-increasing matched-keyword count; every candidate has a non-empty
stored keyword list, matches at least one query keyword under the
case-insensitive symmetric substring test, and is never the (non-empty)
excluded path. -/
theorem prefilter_spec (Q : List String) (ex : Option String)
    (I : List (String × NoteIdx)) :
    ((filterByKeywords Q ex I).length ≤ 10 ∧
      (filterByKeywords Q ex I).Pairwise
        (fun a b => b.matchedKeywords.length ≤ a.matchedKeywords.length) ∧
      ∀ c ∈ filterByKeywords Q ex I,
        c.note.keywords ≠ [] ∧
        (∃ nk ∈ c.note.keywords, ∃ q ∈ Q, kwMatches nk (lowerStr q) = true) ∧
        ∀ e : String, ex = some e → e ≠ "" → c.path ≠ e) ∧
    ((filterZettelsByKeywords Q I ex).length ≤ 10 ∧
      (filterZettelsByKeywords Q I ex).Pairwise
        (fun a b => b.matchedKeywords.length ≤ a.matchedKeywords.length) ∧
      ∀ c ∈ filterZettelsByKeywords Q I ex,
        c.note.keywords ≠ [] ∧
        (∃ nk ∈ c.note.keywords, ∃ q ∈ Q, kwMatches nk (lowerStr q) = true) ∧
        ∀ e : String, ex = some e → e ≠ "" → c.path ≠ e) :=
  ⟨prefilter_core Q ex I, prefilter_core Q ex I⟩

/-- Witness for C3 on the specification's three-document scenario: two of
three notes share the keyword "sensor" and one of them is excluded. -/
theorem prefilter_spec_witness :
    ((filterByKeywords ["sensor"] (some "b.md")
        [("a.md", ⟨"a.md", "A", ["sensor"], none⟩),
         ("b.md", ⟨"b.md", "B", ["sensor"], none⟩),
         ("c.md", ⟨"c.md", "C", ["motor"], none⟩)]).length ≤ 10 ∧
      (filterByKeywords ["sensor"] (some "b.md")
        [("a.md", ⟨"a.md", "A", ["sensor"], none⟩),
         ("b.md", ⟨"b.md", "B", ["sensor"], none⟩),
         ("c.md", ⟨"c.md", "C", ["motor"], none⟩)]).Pairwise
        (fun a b => b.matchedKeywords.length ≤ a.matchedKeywords.length) ∧
      ∀ c ∈ filterByKeywords ["sensor"] (some "b.md")
        [("a.md", ⟨"a.md", "A", ["sensor"], none⟩),
         ("b.md", ⟨"b.md", "B", ["sensor"], none⟩),
         ("c.md", ⟨"c.md", "C", ["motor"], none⟩)],
        c.note.keywords ≠ [] ∧
        (∃ nk ∈ c.note.keywords, ∃ q ∈ ["sensor"], kwMatches nk (lowerStr q) = true) ∧
        ∀ e : String, some "b.md" = some e → e ≠ "" → c.path ≠ e) ∧
    ((filterZettelsByKeywords ["sensor"]
        [("a.md", ⟨"a.md", "A", ["sensor"], none⟩),
         ("b.md", ⟨"b.md", "B", ["sensor"], none⟩),
         ("c.md", ⟨"c.md", "C", ["motor"], none⟩)] (some "b.md")).length ≤ 10 ∧
      (filterZettelsByKeywords ["sensor"]
        [("a.md", ⟨"a.md", "A", ["sensor"], none⟩),
         ("b.md", ⟨"b.md", "B", ["sensor"], none⟩),
         ("c.md", ⟨"c.md", "C", ["motor"], none⟩)] (some "b.md")).Pairwise
        (fun a b => b.matchedKeywords.length ≤ a.matchedKeywords.length) ∧
      ∀ c ∈ filterZettelsByKeywords ["sensor"]
        [("a.md", ⟨"a.md", "A", ["sensor"], none⟩),
         ("b.md", ⟨"b.md", "B", ["sensor"], none⟩),
         ("c.md", ⟨"c.md", "C", ["motor"], none⟩)] (some "b.md"),
        c.note.keywords ≠ [] ∧
        (∃ nk ∈ c.note.keywords, ∃ q ∈ ["sensor"], kwMatches nk (lowerStr q) = true) ∧
        ∀ e : String, some "b.md" = some e → e ≠ "" → c.path ≠ e) :=
  prefilter_spec ["sensor"] (some "b.md")
    [("a.md", ⟨"a.md", "A", ["sensor"], none⟩),
     ("b.md", ⟨"b.md", "B", ["sensor"], none⟩),
     ("c.md", ⟨"c.md", "C", ["motor"], none⟩)]

/-! ## Classifier gateway response parsing (src/src/api/prompts.ts,
parseRelatedNotesResponse lines 714-755) -/

/-- Fields of one well-formed relatedness object of the classifier
response; the floating-point relevance score is modelled as a rational and
the positional index as an integer. -/
structure RawRel where
  index : Int
  relevance : ℚ
  reason : Option String
  ty : Option String
deriving DecidableEq

/-- One item of the parsed JSON array handed to the filter at prompts.ts
lines 730-739: invalid stands for any item that is not an object with
numeric index and relevance (such items are dropped by the typeof
filter). -/
inductive JsonRelItem where
  | invalid
  | valid (e : RawRel)
deriving DecidableEq

/-- Validity test corresponding to the typeof filter. -/
def isValidRelItem : JsonRelItem → Bool
  | .invalid => false
  | .valid _ => true

/-- Entry shape returned by parseRelatedNotesResponse. -/
structure RelEntry where
  index : Int
  relevance : ℚ
  reason : String
  ty : String
deriving DecidableEq

/-- Shallow embedding of parseRelatedNotesResponse (prompts.ts lines
714-755) after JSON parsing: drop invalid items, keep relevance ≥ 0.5,
sort by descending relevance, truncate to 5 entries, default reason and
type to the empty string. -/
def parseRelatedNotesResponse (items : List JsonRelItem) : List RelEntry :=
  let valid := items.filterMap (fun it => match it with
    | .invalid => none
    | .valid e => some e)
  let filtered := valid.filter (fun e => decide ((1 : ℚ)/2 ≤ e.relevance))
  let sorted := sortDescBy (fun e => e.relevance) filtered
  (sorted.take 5).map (fun e => ⟨e.index, e.relevance, e.reason.getD "", e.ty.getD ""⟩)

theorem filterMap_valid_of_filter (items : List JsonRelItem) :
    (items.filter isValidRelItem).filterMap (fun it => match it with
      | JsonRelItem.invalid => none
      | JsonRelItem.valid e => some e)
    = items.filterMap (fun it => match it with
      | JsonRelItem.invalid => none
      | JsonRelItem.valid e => some e) := by
  induction items with
  | nil => rfl
  | cons it t ih =>
    cases it with
    | invalid => simpa [List.filter, isValidRelItem] using ih
    | valid e => simpa [List.filter, isValidRelItem] using ih

/-- C7 The parsed relatedness result holds at most 5 entries, is sorted by
non-increasing relevance, every entry has relevance ≥ 0.5, and items whose
index or relevance is not a number are dropped (parsing is unchanged by
removing them). -/
theorem parseRelatedNotes_spec (items : List JsonRelItem) :
    (parseRelatedNotesResponse items).length ≤ 5 ∧
    (parseRelatedNotesResponse items).Pairwise
      (fun a b => b.relevance ≤ a.relevance) ∧
    (∀ e ∈ parseRelatedNotesResponse items, (1 : ℚ)/2 ≤ e.relevance) ∧
    parseRelatedNotesResponse items
      = parseRelatedNotesResponse (items.filter isValidRelItem) := by
  refine ⟨?_, ?_, ?_, ?_⟩
  · rw [parseRelatedNotesResponse]
    simp only [List.length_map]
    exact List.length_take_le _ _
  · rw [parseRelatedNotesResponse]
    rw [List.pairwise_map]
    exact ((pairwise_sortDescBy _ _).sublist (List.take_sublist _ _))
  · intro e he
    rw [parseRelatedNotesResponse, List.mem_map] at he
    obtain ⟨x, hx, hxe⟩ := he
    have hx1 := List.take_subset _ _ hx
    rw [mem_sortDescBy, List.mem_filter] at hx1
    have := of_decide_eq_true hx1.2
    rw [← hxe]
    exact this
  · rw [parseRelatedNotesResponse, parseRelatedNotesResponse,
      filterMap_valid_of_filter]

/-- Witness for C7 on a concrete three-item response (one invalid item,
one below-threshold entry, one retained entry). -/
theorem parseRelatedNotes_spec_witness :
    (parseRelatedNotesResponse
        [JsonRelItem.invalid, JsonRelItem.valid ⟨0, (3 : ℚ)/10, none, none⟩,
         JsonRelItem.valid ⟨1, (9 : ℚ)/10, some "close", none⟩]).length ≤ 5 ∧
    (parseRelatedNotesResponse
        [JsonRelItem.invalid, JsonRelItem.valid ⟨0, (3 : ℚ)/10, none, none⟩,
         JsonRelItem.valid ⟨1, (9 : ℚ)/10, some "close", none⟩]).Pairwise
      (fun a b => b.relevance ≤ a.relevance) ∧
    (∀ e ∈ parseRelatedNotesResponse
        [JsonRelItem.invalid, JsonRelItem.valid ⟨0, (3 : ℚ)/10, none, none⟩,
         JsonRelItem.valid ⟨1, (9 : ℚ)/10, some "close", none⟩], (1 : ℚ)/2 ≤ e.relevance) ∧
    parseRelatedNotesResponse
        [JsonRelItem.invalid, JsonRelItem.valid ⟨0, (3 : ℚ)/10, none, none⟩,
         JsonRelItem.valid ⟨1, (9 : ℚ)/10, some "close", none⟩]
      = parseRelatedNotesResponse
        ([JsonRelItem.invalid, JsonRelItem.valid ⟨0, (3 : ℚ)/10, none, none⟩,
          JsonRelItem.valid ⟨1, (9 : ℚ)/10, some "close", none⟩].filter isValidRelItem) :=
  parseRelatedNotes_spec
    [JsonRelItem.invalid, JsonRelItem.valid ⟨0, (3 : ℚ)/10, none, none⟩,
     JsonRelItem.valid ⟨1, (9 : ℚ)/10, some "close", none⟩]

/-! ## Merge decision point (src/unnamed/part_000, createZKNotes lines
1342-1370) -/

/-- Search result shape RelatedNote (src/unnamed/part_001 lines 135-141),
with the relevance score as a rational. -/
structure RelatedNoteRes where
  note : NoteIdx
  relevance : ℚ
  matchedKeywords : List String
  reason : String
  connectionType : String
deriving DecidableEq

/-- Default merge threshold DEFAULT_SETTINGS.zkMergeThreshold = 0.8
(src/unnamed/part_001 line 65). -/
def defaultZkMergeThreshold : ℚ := 0.8

/-- Merge decision point of createZKNotes (part_000 lines 1348-1358): the
merge-or-create confirmation is surfaced exactly when
similarNotes.find(n => n.relevance >= threshold) finds an element. -/
def surfacesMergeDecision (similarNotes : List RelatedNoteRes)
    (threshold : ℚ) : Bool :=
  (similarNotes.find? (fun n => decide (threshold ≤ n.relevance))).isSome

/-- C8 The merge-or-create decision point is surfaced iff some related
result reaches the configured threshold; with the default threshold 0.8, a
result of relevance 0.85 triggers it and one of 0.79 does not. -/
theorem mergeDecision_iff_threshold :
    (∀ (s : List RelatedNoteRes) (th : ℚ),
      surfacesMergeDecision s th = true ↔ ∃ n ∈ s, th ≤ n.relevance) ∧
    surfacesMergeDecision
      [⟨⟨"r.md", "R", [], some "zettel"⟩, (85 : ℚ)/100, [], "", ""⟩]
      defaultZkMergeThreshold = true ∧
    surfacesMergeDecision
      [⟨⟨"r.md", "R", [], some "zettel"⟩, (79 : ℚ)/100, [], "", ""⟩]
      defaultZkMergeThreshold = false := by
  refine ⟨?_, ?_, ?_⟩
  · intro s th
    rw [surfacesMergeDecision, List.find?_isSome]
    simp
  · rw [surfacesMergeDecision]
    rw [List.find?]
    norm_num [defaultZkMergeThreshold]
  · rw [surfacesMergeDecision]
    rw [List.find?]
    norm_num [defaultZkMergeThreshold]

/-! ## Hybrid search pipelines and index-to-record mapping
(src/unnamed/part_003, findRelated lines 411-455 and findRelatedZettels
lines 620-667) -/

/-- Index-to-record mapping loop shared verbatim by findRelated (lines
440-452) and findRelatedZettels (lines 651-664): an entry selects the
candidate positionally when 0 ≤ index < candidates.length, every other
entry is skipped without error. -/
def mapAiResultsToRelated (aiResults : List RelEntry)
    (candidates : List KwCandidate) : List RelatedNoteRes :=
  aiResults.foldl
    (fun results r =>
      if 0 ≤ r.index then
        match candidates[r.index.toNat]? with
        | some c => results ++ [⟨c.note, r.relevance, c.matchedKeywords, r.reason, r.ty⟩]
        | none => results
      else results)
    []

/-- Shallow embedding of findRelated (part_003 lines 411-455), with the
gateway outputs (extracted keywords and the parsed relatedness entries)
supplied as parameters. -/
def findRelated (keywords : List String) (excludePath : Option String)
    (index : List (String × NoteIdx)) (aiResults : List RelEntry) :
    List RelatedNoteRes :=
  if keywords.isEmpty then []
  else
    let candidates := filterByKeywords keywords excludePath index
    if candidates.isEmpty then []
    else mapAiResultsToRelated aiResults candidates

/-- Shallow embedding of findRelatedZettels (part_003 lines 620-667):
the same pipeline restricted to the Zettel-only index. -/
def findRelatedZettels (keywords : List String) (excludePath : Option String)
    (index : List (String × NoteIdx)) (aiResults : List RelEntry) :
    List RelatedNoteRes :=
  if keywords.isEmpty then []
  else
    let zettelIndex := getZettelIndex index
    if zettelIndex.isEmpty then []
    else
      let candidates := filterZettelsByKeywords keywords zettelIndex excludePath
      if candidates.isEmpty then []
      else mapAiResultsToRelated aiResults candidates

theorem mapAiResults_all_out_of_range (ai : List RelEntry)
    (cands : List KwCandidate)
    (h : ∀ r ∈ ai, r.index < 0 ∨ (cands.length : Int) ≤ r.index) :
    mapAiResultsToRelated ai cands = [] := by
  rw [mapAiResultsToRelated]
  suffices hgen : ∀ acc : List RelatedNoteRes,
      ai.foldl
        (fun results r =>
          if 0 ≤ r.index then
            match cands[r.index.toNat]? with
            | some c => results ++ [⟨c.note, r.relevance, c.matchedKeywords, r.reason, r.ty⟩]
            | none => results
          else results)
        acc = acc from hgen []
  induction ai with
  | nil => intro acc; rfl
  | cons r t ih =>
    intro acc
    rw [List.foldl_cons]
    have hr := h r (List.mem_cons_self r t)
    have hstep : (if 0 ≤ r.index then
        match cands[r.index.toNat]? with
        | some c => acc ++ [⟨c.note, r.relevance, c.matchedKeywords, r.reason, r.ty⟩]
        | none => acc
      else acc) = acc := by
      rcases hr with hneg | hge
      · rw [if_neg (by omega)]
      · by_cases h0 : 0 ≤ r.index
        · rw [if_pos h0]
          have hnone : cands[r.index.toNat]? = none := by
            rw [List.getElem?_eq_none]
            omega
          rw [hnone]
        · rw [if_neg h0]
    rw [hstep]
    exact ih (fun x hx => h x (List.mem_cons_of_mem r hx)) acc

/-- C9 Classifier entries whose index is negative or at least the number of
candidates are silently dropped by the mapping step of both search
pipelines; when every entry is out of range the searches return the empty
list. -/
theorem out_of_range_indices_dropped :
    (∀ (ai : List RelEntry) (cands : List KwCandidate),
      (∀ r ∈ ai, r.index < 0 ∨ (cands.length : Int) ≤ r.index) →
      mapAiResultsToRelated ai cands = []) ∧
    (∀ (keywords : List String) (ex : Option String)
        (index : List (String × NoteIdx)) (ai : List RelEntry),
      (∀ r ∈ ai, r.index < 0 ∨
        ((filterByKeywords keywords ex index).length : Int) ≤ r.index) →
      findRelated keywords ex index ai = []) ∧
    (∀ (keywords : List String) (ex : Option String)
        (index : List (String × NoteIdx)) (ai : List RelEntry),
      (∀ r ∈ ai, r.index < 0 ∨
        ((filterZettelsByKeywords keywords (getZettelIndex index) ex).length : Int)
          ≤ r.index) →
      findRelatedZettels keywords ex index ai = []) := by
  refine ⟨mapAiResults_all_out_of_range, ?_, ?_⟩
  · intro keywords ex index ai h
    rw [findRelated]
    split
    · rfl
    · show (if (filterByKeywords keywords ex index).isEmpty = true then []
        else mapAiResultsToRelated ai (filterByKeywords keywords ex index)) = []
      split
      · rfl
      · exact mapAiResults_all_out_of_range ai _ h
  · intro keywords ex index ai h
    rw [findRelatedZettels]
    split
    · rfl
    · show (if (getZettelIndex index).isEmpty = true then []
        else
          if (filterZettelsByKeywords keywords (getZettelIndex index) ex).isEmpty = true
            then []
          else mapAiResultsToRelated ai
            (filterZettelsByKeywords keywords (getZettelIndex index) ex)) = []
      split
      · rfl
      · split
        · rfl
        · exact mapAiResults_all_out_of_range ai _ h

/-- Witness for C9: a classifier index of 7 against three matching Zettel
candidates yields the empty result in both pipelines. -/
theorem out_of_range_indices_dropped_witness :
    findRelatedZettels ["sensor"] none
      [("a.md", ⟨"a.md", "A", ["sensor"], some "zettel"⟩),
       ("b.md", ⟨"b.md", "B", ["sensor"], some "zettel"⟩),
       ("c.md", ⟨"c.md", "C", ["sensor"], some "zettel"⟩)]
      [⟨7, (9 : ℚ)/10, "", ""⟩] = [] ∧
    findRelated ["sensor"] none
      [("a.md", ⟨"a.md", "A", ["sensor"], some "zettel"⟩),
       ("b.md", ⟨"b.md", "B", ["sensor"], some "zettel"⟩),
       ("c.md", ⟨"c.md", "C", ["sensor"], some "zettel"⟩)]
      [⟨7, (9 : ℚ)/10, "", ""⟩] = [] := by
  constructor
  · refine out_of_range_indices_dropped.2.2 ["sensor"] none
      [("a.md", ⟨"a.md", "A", ["sensor"], some "zettel"⟩),
       ("b.md", ⟨"b.md", "B", ["sensor"], some "zettel"⟩),
       ("c.md", ⟨"c.md", "C", ["sensor"], some "zettel"⟩)]
      [⟨7, (9 : ℚ)/10, "", ""⟩] ?_
    intro r hr
    have hr' : r = ⟨7, (9 : ℚ)/10, "", ""⟩ := by simpa using hr
    subst hr'
    right
    have hlen : (filterZettelsByKeywords ["sensor"]
        (getZettelIndex
          [("a.md", ⟨"a.md", "A", ["sensor"], some "zettel"⟩),
           ("b.md", ⟨"b.md", "B", ["sensor"], some "zettel"⟩),
           ("c.md", ⟨"c.md", "C", ["sensor"], some "zettel"⟩)]) none).length = 3 := by
      decide
    rw [hlen]
    decide
  · refine out_of_range_indices_dropped.2.1 ["sensor"] none
      [("a.md", ⟨"a.md", "A", ["sensor"], some "zettel"⟩),
       ("b.md", ⟨"b.md", "B", ["sensor"], some "zettel"⟩),
       ("c.md", ⟨"c.md", "C", ["sensor"], some "zettel"⟩)]
      [⟨7, (9 : ℚ)/10, "", ""⟩] ?_
    intro r hr
    have hr' : r = ⟨7, (9 : ℚ)/10, "", ""⟩ := by simpa using hr
    subst hr'
    right
    have hlen : (filterByKeywords ["sensor"] none
        [("a.md", ⟨"a.md", "A", ["sensor"], some "zettel"⟩),
         ("b.md", ⟨"b.md", "B", ["sensor"], some "zettel"⟩),
         ("c.md", ⟨"c.md", "C", ["sensor"], some "zettel"⟩)]).length = 3 := by
      decide
    rw [hlen]
    decide

/-! ## Target-type validation (src/src/api/prompts.ts, validateTargetType
lines 866-872, parseProjectResponse lines 406-426, parseSplitResponse
lines 828-861) -/

/-- Model of validateTargetType (prompts.ts lines 866-872). -/
def validateTargetType (targetType : String) : String :=
  if ["project", "library", "archive"].contains targetType then targetType
  else "library"

/-- ClassifyResult (src/unnamed/part_001 lines 72-79). -/
structure ClassifyRes where
  targetType : String
  projectName : Option String
  isNewProject : Bool
  title : String
  summary : String
  nextAction : Option String
deriving DecidableEq

/-- Raw JSON object fields consumed by parseProjectResponse; an absent
field is none. -/
structure RawClassify where
  targetType : String
  projectName : Option String
  isNewProject : Option Bool
  title : Option String
  summary : Option String
  nextAction : Option String
deriving DecidableEq

/-- JS "x || d" for an optional string (the empty string is falsy). -/
def jsStrOr (x : Option String) (d : String) : String :=
  match x with
  | some s => if s = "" then d else s
  | none => d

/-- JS "x || undefined" (and "x || null") for an optional string. -/
def jsStrOrUndef (x : Option String) : Option String :=
  match x with
  | some s => if s = "" then none else some s
  | none => none

/-- Object-to-result mapping of parseProjectResponse (prompts.ts lines
414-422) after JSON extraction. -/
def parseProjectResponse (raw : RawClassify) : ClassifyRes :=
  { targetType := validateTargetType raw.targetType
    projectName := jsStrOrUndef raw.projectName
    isNewProject := raw.isNewProject.getD false
    title := jsStrOr raw.title "Untitled"
    summary := jsStrOr raw.summary ""
    nextAction := jsStrOrUndef raw.nextAction }

/-- SplitSection (src/unnamed/part_001 lines 144-152). -/
structure SplitSec where
  title : String
  content : String
  targetType : String
  project : Option String
  isNewProject : Bool
  keywords : List String
  isAtomic : Bool
deriving DecidableEq

/-- Raw JSON object fields consumed per item by parseSplitResponse; a
keywords field that is not an array is none. -/
structure RawSplit where
  title : Option String
  content : Option String
  targetType : String
  projectName : Option String
  isNewProject : Option Bool
  keywords : Option (List String)
  isAtomic : Option Bool
deriving DecidableEq

/-- Item mapping of parseSplitResponse (prompts.ts lines 838-854). -/
def parseSplitResponse (items : List RawSplit) : List SplitSec :=
  items.map (fun item =>
    { title := jsStrOr item.title "Untitled"
      content := jsStrOr item.content ""
      targetType := validateTargetType item.targetType
      project := jsStrOrUndef item.projectName
      isNewProject := item.isNewProject.getD false
      keywords := item.keywords.getD []
      isAtomic := item.isAtomic.getD false })

/-- C10 validateTargetType always returns one of project / library /
archive, so every classification result and every split section carries a
valid target type. -/
theorem targetType_always_valid :
    (∀ s : String, validateTargetType s = "project" ∨ validateTargetType s = "library"
      ∨ validateTargetType s = "archive") ∧
    (∀ raw : RawClassify, (parseProjectResponse raw).targetType = "project"
      ∨ (parseProjectResponse raw).targetType = "library"
      ∨ (parseProjectResponse raw).targetType = "archive") ∧
    (∀ (items : List RawSplit), ∀ sec ∈ parseSplitResponse items,
      sec.targetType = "project" ∨ sec.targetType = "library"
      ∨ sec.targetType = "archive") := by
  have hv : ∀ s : String, validateTargetType s = "project"
      ∨ validateTargetType s = "library" ∨ validateTargetType s = "archive" := by
    intro s
    rw [validateTargetType]
    split
    · rename_i h
      simp at h
      rcases h with h | h | h
      · exact Or.inl h
      · exact Or.inr (Or.inl h)
      · exact Or.inr (Or.inr h)
    · exact Or.inr (Or.inl rfl)
  refine ⟨hv, fun raw => hv _, ?_⟩
  intro items sec hsec
  rw [parseSplitResponse, List.mem_map] at hsec
  obtain ⟨item, _, hitem⟩ := hsec
  rw [← hitem]
  exact hv item.targetType

/-- Witness for C10: the unexpected classifier string "weird" is routed to
"library" in a split section. -/
theorem targetType_always_valid_witness :
    (⟨"Untitled", "", "library", none, false, [], false⟩ : SplitSec)
      ∈ parseSplitResponse [⟨none, none, "weird", none, none, none, none⟩] ∧
    ((⟨"Untitled", "", "library", none, false, [], false⟩ : SplitSec).targetType = "project"
      ∨ (⟨"Untitled", "", "library", none, false, [], false⟩ : SplitSec).targetType = "library"
      ∨ (⟨"Untitled", "", "library", none, false, [], false⟩ : SplitSec).targetType = "archive") := by
  have hmem : (⟨"Untitled", "", "library", none, false, [], false⟩ : SplitSec)
      ∈ parseSplitResponse [⟨none, none, "weird", none, none, none, none⟩] := by
    decide
  exact ⟨hmem,
    targetType_always_valid.2.2 [⟨none, none, "weird", none, none, none, none⟩] _ hmem⟩

/-! ## Linked-notes section editing (src/unnamed/part_000,
addZKRelatedLinks lines 1535-1568 and addBacklinksToZettels lines
1573-1604) -/

/-- First index at which pat occurs as a contiguous block of the list, if
any: the match-start search of a regex whose pattern begins with a literal
prefix. -/
def firstIdx? (pat : List Char) : List Char → Option Nat
  | [] => if pat.isPrefixOf ([] : List Char) then some 0 else none
  | c :: t =>
    if pat.isPrefixOf (c :: t) then some 0
    else (firstIdx? pat t).map (· + 1)

/-- Earliest position from which the remainder of the list consists only of
newline characters: the earliest point where the lazy body of the section
regex can stop with the trailing newline-run alternative of group 2. -/
def nlRunStart : List Char → Nat
  | [] => 0
  | c :: t => if (c :: t).all (fun x => x == '\n') then 0 else nlRunStart t + 1

/-- Header literal of the linked-notes section: the leading literal of the
regex at part_000 lines 1552 and 1589. -/
def linkedHeader : List Char := "---\n## 연결된 노트\n".data

/-- Position where the lazy body of the section regex stops, within the
text following the header: the first occurrence of the newline-dash fence
(tried first by the alternation of group 2), or failing that the earliest
trailing newline run. -/
def lazyBodyEnd (rest : List Char) : Nat :=
  match firstIdx? "\n---".data rest with
  | some k => k
  | none => nlRunStart rest

/-- Model of content.replace(regex, group1 ++ newline ++ links ++ group2)
for the section regex of part_000 lines 1552-1565 and 1589-1600 (a literal
header, a lazy any-character body, then a group matching a newline-dash
fence or a trailing newline run), together with the fallback that appends
a fresh section when the header is absent: the joined links are inserted
between the two groups. -/
def replaceLinkedSection (content links : List Char) : List Char :=
  match firstIdx? linkedHeader content with
  | none => content ++ "\n---\n## 연결된 노트\n".data ++ links ++ ['\n']
  | some i =>
    content.take (i + linkedHeader.length)
      ++ (content.drop (i + linkedHeader.length)).take
          (lazyBodyEnd (content.drop (i + linkedHeader.length)))
      ++ '\n' :: (links ++ (content.drop (i + linkedHeader.length)).drop
          (lazyBodyEnd (content.drop (i + linkedHeader.length))))

/-- Strip one trailing ".md": fileName.replace(a dot-md-at-end regex, "")
at part_000 line 1545. -/
def stripMd (l : List Char) : List Char :=
  if ".md".data.isSuffixOf l then l.take (l.length - 3) else l

/-- Link target name of a related note (part_000 lines 1543-1545): the last
path component without its ".md" extension. -/
def linkNameChars (path : String) : List Char :=
  stripMd (basenameChars path.data)

/-- Wiki-link text [[name]]. -/
def wikilink (name : List Char) : List Char :=
  '[' :: '[' :: (name ++ [']', ']'])

/-- Math.round on a rational: round half toward positive infinity. -/
def jsRound (q : ℚ) : Int := Int.floor (q + 1/2)

/-- Decimal rendering of an integer, with a sign prefix for negatives. -/
def intChars (i : Int) : List Char :=
  if i < 0 then '-' :: natDigits i.natAbs else natDigits i.toNat

/-- One link line of addZKRelatedLinks (part_000 lines 1541-1548):
"- [[name]] (pct%)" plus an indented reason line when reason is a truthy
string. -/
def zkLinkLine (r : RelatedNoteRes) : List Char :=
  "- ".data ++ wikilink (linkNameChars r.note.path)
    ++ " (".data ++ intChars (jsRound (r.relevance * 100)) ++ "%)".data
    ++ (if r.reason = "" then [] else "\n  → ".data ++ r.reason.data)

/-- Newline joining: Array.prototype.join applied at part_000 line 1549. -/
def joinLines : List (List Char) → List Char
  | [] => []
  | [x] => x
  | x :: xs => x ++ '\n' :: joinLines xs

/-- Shallow embedding of addZKRelatedLinks (part_000 lines 1535-1568) as a
function of the new note's content: with no related notes the document is
unchanged (the code returns before reading), otherwise the joined link
lines are inserted into the linked-notes section. -/
def addZKRelatedLinks (content : List Char)
    (relatedNotes : List RelatedNoteRes) : List Char :=
  if relatedNotes.isEmpty then content
  else replaceLinkedSection content (joinLines (relatedNotes.map zkLinkLine))

/-- Backlink line of addBacklinksToZettels (part_000 lines 1587-1588). -/
def backlinkLine (newNoteBasename : String) (r : RelatedNoteRes) : List Char :=
  "- ".data ++ wikilink newNoteBasename.data
    ++ " (".data ++ intChars (jsRound (r.relevance * 100)) ++ "%)".data
    ++ (if r.reason = "" then [] else "\n  → ".data ++ r.reason.data)

/-- The vault as a partial map from path to document content. -/
def Vault := String → Option (List Char)

/-- Writing one document (vault.modify / vault.create). -/
def Vault.write (V : Vault) (p : String) (c : List Char) : Vault :=
  fun q => if q = p then some c else V q

/-- One iteration of addBacklinksToZettels (part_000 lines 1577-1603):
missing files are skipped, a document already containing [[basename]] is
left alone, and otherwise the backlink line is inserted into the
document's linked-notes section. -/
def backlinkStep (newNoteBasename : String) (V : Vault) (r : RelatedNoteRes) :
    Vault :=
  match V r.note.path with
  | none => V
  | some content =>
    if wikilink newNoteBasename.data <:+: content then V
    else V.write r.note.path
      (replaceLinkedSection content (backlinkLine newNoteBasename r))

/-- Shallow embedding of addBacklinksToZettels (part_000 lines 1573-1604). -/
def addBacklinksToZettels (newNoteBasename : String)
    (relatedNotes : List RelatedNoteRes) (V : Vault) : Vault :=
  relatedNotes.foldl (backlinkStep newNoteBasename) V

theorem addBacklinksToZettels_cons (b : String) (r0 : RelatedNoteRes)
    (t : List RelatedNoteRes) (V : Vault) :
    addBacklinksToZettels b (r0 :: t) V
      = addBacklinksToZettels b t (backlinkStep b V r0) := by
  rw [addBacklinksToZettels, addBacklinksToZettels, List.foldl_cons]

theorem infix_replaceLinkedSection (content links : List Char) :
    links <:+: replaceLinkedSection content links := by
  rw [replaceLinkedSection]
  cases h : firstIdx? linkedHeader content with
  | none => exact ⟨content ++ "\n---\n## 연결된 노트\n".data, ['\n'], by simp⟩
  | some i =>
    exact ⟨content.take (i + linkedHeader.length)
        ++ (content.drop (i + linkedHeader.length)).take
            (lazyBodyEnd (content.drop (i + linkedHeader.length))) ++ ['\n'],
      (content.drop (i + linkedHeader.length)).drop
          (lazyBodyEnd (content.drop (i + linkedHeader.length))),
      by simp⟩

theorem infix_joinLines {x : List Char} {l : List (List Char)} (h : x ∈ l) :
    x <:+: joinLines l := by
  induction l with
  | nil => cases h
  | cons y t ih =>
    rcases List.mem_cons.mp h with h1 | h1
    · subst h1
      cases t with
      | nil => exact List.infix_rfl
      | cons z ts => exact ⟨[], '\n' :: joinLines (z :: ts), by simp [joinLines]⟩
    · cases t with
      | nil => cases h1
      | cons z ts =>
        exact List.IsInfix.trans (ih h1) ⟨y ++ ['\n'], [], by simp [joinLines]⟩

theorem infix_wikilink_zkLinkLine (r : RelatedNoteRes) :
    wikilink (linkNameChars r.note.path) <:+: zkLinkLine r := by
  exact ⟨"- ".data,
    " (".data ++ intChars (jsRound (r.relevance * 100)) ++ "%)".data
      ++ (if r.reason = "" then [] else "\n  → ".data ++ r.reason.data),
    by rw [zkLinkLine]; simp [List.append_assoc]⟩

theorem infix_wikilink_backlinkLine (b : String) (r : RelatedNoteRes) :
    wikilink b.data <:+: backlinkLine b r := by
  exact ⟨"- ".data,
    " (".data ++ intChars (jsRound (r.relevance * 100)) ++ "%)".data
      ++ (if r.reason = "" then [] else "\n  → ".data ++ r.reason.data),
    by rw [backlinkLine]; simp [List.append_assoc]⟩

theorem backlinkStep_other (b : String) (V : Vault) (r : RelatedNoteRes)
    (q : String) (hq : q ≠ r.note.path) : backlinkStep b V r q = V q := by
  rw [backlinkStep]
  cases hVr : V r.note.path with
  | none => rfl
  | some content =>
    dsimp only
    split
    · rfl
    · simp [Vault.write, hq]

theorem backlinkStep_isSome (b : String) (V : Vault) (r : RelatedNoteRes)
    (q : String) : (backlinkStep b V r q).isSome = (V q).isSome := by
  rw [backlinkStep]
  cases hVr : V r.note.path with
  | none => rfl
  | some content =>
    dsimp only
    split
    · rfl
    · simp only [Vault.write]
      split
      · rename_i hq
        subst hq
        rw [hVr]
        rfl
      · rfl

theorem backlinkStep_linked_preserve (b : String) (V : Vault)
    (r : RelatedNoteRes) (q : String)
    (h : ∀ c, V q = some c → wikilink b.data <:+: c) :
    ∀ c, backlinkStep b V r q = some c → wikilink b.data <:+: c := by
  intro c hc
  cases hVr : V r.note.path with
  | none =>
    rw [backlinkStep, hVr] at hc
    exact h c hc
  | some content =>
    rw [backlinkStep, hVr] at hc
    dsimp only at hc
    split at hc
    · exact h c hc
    · simp only [Vault.write] at hc
      split at hc
      · injection hc with hcc
        rw [← hcc]
        exact (infix_wikilink_backlinkLine b r).trans
          (infix_replaceLinkedSection content _)
      · exact h c hc

theorem backlinkStep_establish (b : String) (V : Vault) (r : RelatedNoteRes) :
    ∀ c, backlinkStep b V r r.note.path = some c → wikilink b.data <:+: c := by
  intro c hc
  cases hVr : V r.note.path with
  | none =>
    rw [backlinkStep, hVr] at hc
    dsimp only at hc
    rw [hVr] at hc
    cases hc
  | some content =>
    rw [backlinkStep, hVr] at hc
    dsimp only at hc
    split at hc
    · rename_i hinf
      rw [hVr] at hc
      injection hc with hcc
      rw [← hcc]
      exact hinf
    · rename_i hninf
      have hc2 : some (replaceLinkedSection content (backlinkLine b r)) = some c := by
        rw [← hc]
        simp [Vault.write]
      injection hc2 with hcc
      rw [← hcc]
      exact (infix_wikilink_backlinkLine b r).trans
        (infix_replaceLinkedSection content _)

theorem addBacklinks_other (b : String) (rs : List RelatedNoteRes) :
    ∀ (V : Vault) (q : String), (∀ r ∈ rs, r.note.path ≠ q) →
    addBacklinksToZettels b rs V q = V q := by
  induction rs with
  | nil => intro V q _; rfl
  | cons r0 t ih =>
    intro V q h
    rw [addBacklinksToZettels_cons,
      ih (backlinkStep b V r0) q (fun r hr => h r (List.mem_cons_of_mem r0 hr)),
      backlinkStep_other b V r0 q (fun hq => h r0 (List.mem_cons_self r0 t) hq.symm)]

theorem addBacklinks_isSome (b : String) (rs : List RelatedNoteRes) :
    ∀ (V : Vault) (q : String),
    (addBacklinksToZettels b rs V q).isSome = (V q).isSome := by
  induction rs with
  | nil => intro V q; rfl
  | cons r0 t ih =>
    intro V q
    rw [addBacklinksToZettels_cons, ih (backlinkStep b V r0) q,
      backlinkStep_isSome]

theorem addBacklinks_linked_preserve (b : String) (rs : List RelatedNoteRes) :
    ∀ (V : Vault) (q : String),
    (∀ c, V q = some c → wikilink b.data <:+: c) →
    ∀ c, addBacklinksToZettels b rs V q = some c → wikilink b.data <:+: c := by
  induction rs with
  | nil => intro V q h c hc; exact h c hc
  | cons r0 t ih =>
    intro V q h c hc
    rw [addBacklinksToZettels_cons] at hc
    exact ih (backlinkStep b V r0) q (backlinkStep_linked_preserve b V r0 q h) c hc

theorem addBacklinks_establish (b : String) (rs : List RelatedNoteRes) :
    ∀ (V : Vault), ∀ r ∈ rs,
    ∀ c, addBacklinksToZettels b rs V r.note.path = some c →
      wikilink b.data <:+: c := by
  induction rs with
  | nil => intro V r hr; cases hr
  | cons r0 t ih =>
    intro V r hr c hc
    rw [addBacklinksToZettels_cons] at hc
    rcases List.mem_cons.mp hr with h1 | h1
    · subst h1
      exact addBacklinks_linked_preserve b t (backlinkStep b V r) r.note.path
        (backlinkStep_establish b V r) c hc
    · exact ih (backlinkStep b V r0) r h1 c hc

/-- C1 After the create path inserts the related links into the new note
and runs the backlink pass, every discovered relation is bidirectional:
the new note's content carries a wiki link to each related note (and the
backlink pass, which only touches the related notes' paths, leaves that
content in place), while each related note's document — whenever its path
is present in the vault — ends up containing a wiki link to the new
note. -/
theorem create_links_bidirectional (V : Vault) (newPath newBasename : String)
    (c : List Char) (rs : List RelatedNoteRes)
    (hex : ∀ r ∈ rs, r.note.path ≠ newPath) :
    ∀ r ∈ rs,
      wikilink (linkNameChars r.note.path) <:+: addZKRelatedLinks c rs ∧
      addBacklinksToZettels newBasename rs
          (V.write newPath (addZKRelatedLinks c rs)) newPath
        = some (addZKRelatedLinks c rs) ∧
      ((V.write newPath (addZKRelatedLinks c rs)) r.note.path ≠ none →
        addBacklinksToZettels newBasename rs
          (V.write newPath (addZKRelatedLinks c rs)) r.note.path ≠ none) ∧
      (∀ c2, addBacklinksToZettels newBasename rs
          (V.write newPath (addZKRelatedLinks c rs)) r.note.path = some c2 →
        wikilink newBasename.data <:+: c2) := by
  intro r hr
  refine ⟨?_, ?_, ?_, ?_⟩
  · rw [addZKRelatedLinks,
      if_neg (by simp [List.isEmpty_iff]; exact List.ne_nil_of_mem hr)]
    exact ((infix_wikilink_zkLinkLine r).trans
      (infix_joinLines (List.mem_map_of_mem zkLinkLine hr))).trans
      (infix_replaceLinkedSection c _)
  · rw [addBacklinks_other newBasename rs _ newPath hex]
    simp [Vault.write]
  · intro hne hcontra
    have hs := addBacklinks_isSome newBasename rs
      (V.write newPath (addZKRelatedLinks c rs)) r.note.path
    rw [hcontra] at hs
    rw [Option.ne_none_iff_isSome] at hne
    rw [hne] at hs
    exact Bool.noConfusion hs
  · exact addBacklinks_establish newBasename rs _ r hr

/-- A one-note vault used by the concrete witnesses below. -/
def demoVault : Vault :=
  fun p => if p = "10 Zettelkasten/r.md" then some "old".data else none

/-- A single discovered relation used by the concrete witnesses below. -/
def demoRel : RelatedNoteRes :=
  ⟨⟨"10 Zettelkasten/r.md", "R", ["sensor"], some "zettel"⟩,
    (1 : ℚ)/100, ["sensor"], "", ""⟩

/-- Witness for C1 on a one-note vault and a single discovered relation. -/
theorem create_links_bidirectional_witness :
    wikilink (linkNameChars "10 Zettelkasten/r.md")
      <:+: addZKRelatedLinks "body".data [demoRel] ∧
    addBacklinksToZettels "20260101-001 n" [demoRel]
        (demoVault.write "10 Zettelkasten/20260101-001 n.md"
          (addZKRelatedLinks "body".data [demoRel]))
        "10 Zettelkasten/20260101-001 n.md"
      = some (addZKRelatedLinks "body".data [demoRel]) ∧
    addBacklinksToZettels "20260101-001 n" [demoRel]
        (demoVault.write "10 Zettelkasten/20260101-001 n.md"
          (addZKRelatedLinks "body".data [demoRel]))
        "10 Zettelkasten/r.md" ≠ none := by
  obtain ⟨h1, h2, h3, h4⟩ := create_links_bidirectional demoVault
    "10 Zettelkasten/20260101-001 n.md" "20260101-001 n" "body".data [demoRel]
    (by
      intro r hr
      have hr' : r = demoRel := by simpa using hr
      subst hr'
      show ("10 Zettelkasten/r.md" : String) ≠ "10 Zettelkasten/20260101-001 n.md"
      decide)
    demoRel (by simp)
  refine ⟨h1, h2, h3 ?_⟩
  show (demoVault.write "10 Zettelkasten/20260101-001 n.md"
    (addZKRelatedLinks "body".data [demoRel])) "10 Zettelkasten/r.md" ≠ none
  simp only [Vault.write]
  rw [if_neg (show ("10 Zettelkasten/r.md" : String)
    ≠ "10 Zettelkasten/20260101-001 n.md" by decide)]
  simp [demoVault]

/-! ### Occurrence counting for the idempotence claim -/

/-- Number of positions at which pat occurs as a contiguous block of the
list. -/
def countOccur (pat : List Char) : List Char → Nat
  | [] => if pat.isPrefixOf ([] : List Char) then 1 else 0
  | c :: t => (if pat.isPrefixOf (c :: t) then 1 else 0) + countOccur pat t

theorem countOccur_nil {pat : List Char} (h : pat ≠ []) : countOccur pat [] = 0 := by
  cases pat with
  | nil => exact absurd rfl h
  | cons c t => rfl

theorem infix_cons_of_tail {pat t : List Char} {c : Char} (h : pat <:+: t) :
    pat <:+: c :: t := by
  obtain ⟨s, u, hsu⟩ := h
  exact ⟨c :: s, u, by rw [← hsu]; simp⟩

theorem countOccur_eq_zero_of_not_contained {pat s : List Char} (hne : pat ≠ [])
    (h : ¬ pat <:+: s) : countOccur pat s = 0 := by
  induction s with
  | nil => exact countOccur_nil hne
  | cons c t ih =>
    rw [countOccur]
    have h1 : pat.isPrefixOf (c :: t) = false := by
      rw [Bool.eq_false_iff]
      intro hp
      exact h (List.isPrefixOf_iff_prefix.mp hp).isInfix
    rw [h1, ih (fun hinf => h (infix_cons_of_tail hinf))]
    simp

theorem countOccur_cons_of_not_mem {pat : List Char} {c : Char} {b : List Char}
    (hne : pat ≠ []) (hc : c ∉ pat) :
    countOccur pat (c :: b) = countOccur pat b := by
  rw [countOccur]
  have h1 : pat.isPrefixOf (c :: b) = false := by
    rw [Bool.eq_false_iff]
    intro hp
    have hpre := List.isPrefixOf_iff_prefix.mp hp
    cases pat with
    | nil => exact hne rfl
    | cons p0 pr =>
      obtain ⟨u, hu⟩ := hpre
      rw [List.cons_append] at hu
      injection hu with h0 _
      exact hc (by rw [h0]; exact List.mem_cons_self _ _)
  rw [h1]
  simp

theorem countOccur_head_not_mem {c0 : Char} {pat s : List Char}
    (h : c0 ∉ s) : countOccur (c0 :: pat) s = 0 := by
  induction s with
  | nil => rfl
  | cons c t ih =>
    rw [countOccur]
    have h1 : (c0 :: pat).isPrefixOf (c :: t) = false := by
      rw [Bool.eq_false_iff]
      intro hp
      obtain ⟨u, hu⟩ := List.isPrefixOf_iff_prefix.mp hp
      rw [List.cons_append] at hu
      injection hu with h0 _
      exact h (by rw [h0]; exact List.mem_cons_self _ _)
    rw [h1, ih (fun hm => h (List.mem_cons_of_mem c hm))]
    simp

theorem prefix_append_cons_iff {pat l b : List Char} {c : Char}
    (hc : c ∉ pat) : pat <+: (l ++ c :: b) ↔ pat <+: l := by
  constructor
  · intro h
    rcases le_or_lt pat.length l.length with hle | hlt
    · have heq := List.prefix_iff_eq_take.mp h
      rw [List.take_append_eq_append_take, Nat.sub_eq_zero_of_le hle,
        List.take_zero, List.append_nil] at heq
      rw [heq]
      exact List.take_prefix _ _
    · exfalso
      have heq := List.prefix_iff_eq_take.mp h
      rw [List.take_append_eq_append_take,
        show pat.length - l.length = (pat.length - l.length - 1) + 1 by omega,
        List.take_succ_cons] at heq
      exact hc (by rw [heq]; exact List.mem_append_right _ (List.mem_cons_self _ _))
  · intro h
    exact h.trans (List.prefix_append l (c :: b))

theorem countOccur_append_cons {pat : List Char} (hne : pat ≠ []) {c : Char}
    (hc : c ∉ pat) (a b : List Char) :
    countOccur pat (a ++ c :: b) = countOccur pat a + countOccur pat (c :: b) := by
  induction a with
  | nil => rw [List.nil_append, countOccur_nil hne, Nat.zero_add]
  | cons x a' ih =>
    rw [List.cons_append, countOccur, ih]
    conv_rhs => rw [countOccur]
    have hiff : pat.isPrefixOf (x :: (a' ++ c :: b)) = pat.isPrefixOf (x :: a') := by
      have hx : x :: (a' ++ c :: b) = (x :: a') ++ c :: b := rfl
      by_cases hp : pat <+: (x :: a')
      · rw [hx, List.isPrefixOf_iff_prefix.mpr ((prefix_append_cons_iff hc).mpr hp),
          List.isPrefixOf_iff_prefix.mpr hp]
      · have h1 : pat.isPrefixOf ((x :: a') ++ c :: b) = false := by
          rw [Bool.eq_false_iff]
          intro hq
          exact hp ((prefix_append_cons_iff hc).mp (List.isPrefixOf_iff_prefix.mp hq))
        have h2 : pat.isPrefixOf (x :: a') = false := by
          rw [Bool.eq_false_iff]
          intro hq
          exact hp (List.isPrefixOf_iff_prefix.mp hq)
        rw [hx, h1, h2]
    rw [hiff]
    omega

theorem wikilink_ne_nil (nm : List Char) : wikilink nm ≠ [] := by
  rw [wikilink]
  simp

theorem not_mem_wikilink {nm : List Char} (hnl : '\n' ∉ nm) :
    '\n' ∉ wikilink nm := by
  rw [wikilink]
  intro h
  rcases List.mem_cons.mp h with h1 | h1
  · exact absurd h1 (by decide)
  · rcases List.mem_cons.mp h1 with h2 | h2
    · exact absurd h2 (by decide)
    · rcases List.mem_append.mp h2 with h3 | h3
      · exact hnl h3
      · exact absurd h3 (by decide)

theorem firstIdx?_isPrefixOf {pat s : List Char} {k : Nat}
    (h : firstIdx? pat s = some k) : pat.isPrefixOf (s.drop k) = true := by
  induction s generalizing k with
  | nil =>
    rw [firstIdx?] at h
    split at h
    · rename_i hp
      injection h with hk
      subst hk
      exact hp
    · cases h
  | cons c t ih =>
    rw [firstIdx?] at h
    split at h
    · rename_i hp
      injection h with hk
      subst hk
      exact hp
    · cases hft : firstIdx? pat t with
      | none =>
        rw [hft] at h
        cases h
      | some kk =>
        rw [hft] at h
        simp at h
        rw [← h, List.drop_succ_cons]
        exact ih hft

theorem nlRunStart_all {s : List Char} : ∀ c ∈ s.drop (nlRunStart s), c = '\n' := by
  induction s with
  | nil => intro c hc; simp at hc
  | cons x t ih =>
    rw [nlRunStart]
    split
    · rename_i hall
      intro c hc
      rw [List.drop_zero] at hc
      exact eq_of_beq (List.all_eq_true.mp hall c hc)
    · intro c hc
      rw [List.drop_succ_cons] at hc
      exact ih c hc

theorem lazyBodyEnd_head {rest : List Char} {c0 : Char} {B : List Char}
    (h : rest.drop (lazyBodyEnd rest) = c0 :: B) : c0 = '\n' := by
  rw [lazyBodyEnd] at h
  cases hf : firstIdx? "\n---".data rest with
  | some k =>
    rw [hf] at h
    have hp := firstIdx?_isPrefixOf hf
    rw [h] at hp
    obtain ⟨u, hu⟩ := List.isPrefixOf_iff_prefix.mp hp
    rw [show "\n---".data = '\n' :: "---".data by decide, List.cons_append] at hu
    injection hu with h0 _
    exact h0.symm
  | none =>
    rw [hf] at h
    exact nlRunStart_all c0 (by rw [h]; exact List.mem_cons_self _ _)

theorem countOccur_replaceLinkedSection {nm : List Char} (content nl : List Char)
    (hnl : '\n' ∉ nm)
    (hcontent : ¬ wikilink nm <:+: content)
    (hcnt : countOccur (wikilink nm) nl = 1) :
    countOccur (wikilink nm) (replaceLinkedSection content nl) = 1 := by
  have hne : wikilink nm ≠ [] := wikilink_ne_nil nm
  have hnlp : '\n' ∉ wikilink nm := not_mem_wikilink hnl
  have hhead : ∀ s : List Char, '[' ∉ s → countOccur (wikilink nm) s = 0 := by
    intro s hs
    rw [wikilink]
    exact countOccur_head_not_mem hs
  rw [replaceLinkedSection]
  cases hidx : firstIdx? linkedHeader content with
  | none =>
    dsimp only
    have he : content ++ "\n---\n## 연결된 노트\n".data ++ nl ++ ['\n']
        = content ++ '\n' :: ("---".data
            ++ '\n' :: ("## 연결된 노트".data ++ '\n' :: (nl ++ ['\n']))) := by
      simp
    rw [he]
    rw [countOccur_append_cons hne hnlp content]
    rw [countOccur_eq_zero_of_not_contained hne hcontent]
    rw [countOccur_cons_of_not_mem hne hnlp]
    rw [countOccur_append_cons hne hnlp "---".data]
    rw [hhead "---".data (by decide)]
    rw [countOccur_cons_of_not_mem hne hnlp]
    rw [countOccur_append_cons hne hnlp "## 연결된 노트".data]
    rw [hhead "## 연결된 노트".data (by decide)]
    rw [countOccur_cons_of_not_mem hne hnlp]
    rw [countOccur_append_cons hne hnlp nl]
    rw [hcnt, countOccur_cons_of_not_mem hne hnlp, countOccur_nil hne]
  | some i =>
    dsimp only
    rw [show content.take (i + linkedHeader.length)
        ++ (content.drop (i + linkedHeader.length)).take
            (lazyBodyEnd (content.drop (i + linkedHeader.length)))
      = content.take (i + linkedHeader.length
          + lazyBodyEnd (content.drop (i + linkedHeader.length)))
      from (List.take_add _ _ _).symm]
    rw [List.drop_drop]
    rw [countOccur_append_cons hne hnlp]
    have hA0 : countOccur (wikilink nm)
        (content.take (i + linkedHeader.length
          + lazyBodyEnd (content.drop (i + linkedHeader.length)))) = 0 :=
      countOccur_eq_zero_of_not_contained hne
        (fun hinf => hcontent (hinf.trans (List.take_prefix _ _).isInfix))
    rw [hA0, countOccur_cons_of_not_mem hne hnlp]
    cases hB : content.drop (i + linkedHeader.length
        + lazyBodyEnd (content.drop (i + linkedHeader.length))) with
    | nil =>
      rw [List.append_nil, hcnt]
    | cons c0 B2 =>
      have hc0 : c0 = '\n' := by
        refine @lazyBodyEnd_head (content.drop (i + linkedHeader.length)) _ B2 ?_
        rw [List.drop_drop]
        exact hB
      subst hc0
      rw [countOccur_append_cons hne hnlp, hcnt,
        countOccur_cons_of_not_mem hne hnlp]
      have hB2 : countOccur (wikilink nm) B2 = 0 := by
        refine countOccur_eq_zero_of_not_contained hne (fun hinf => hcontent ?_)
        refine hinf.trans (List.IsSuffix.isInfix ?_)
        have hsuf : ('\n' :: B2) <:+ content := by
          rw [← hB]
          exact List.drop_suffix _ _
        exact (List.suffix_cons '\n' B2).trans hsuf
      rw [hB2]

/-! ### Idempotence of the backlink pass -/

theorem backlinkStep_id_of_linked (b : String) (W : Vault) (r : RelatedNoteRes)
    (h : ∀ c, W r.note.path = some c → wikilink b.data <:+: c) :
    backlinkStep b W r = W := by
  rw [backlinkStep]
  cases hW : W r.note.path with
  | none => rfl
  | some content =>
    dsimp only
    rw [if_pos (h content hW)]

theorem addBacklinks_id_of_linked (b : String) (rs : List RelatedNoteRes) :
    ∀ W : Vault,
    (∀ r ∈ rs, ∀ c, W r.note.path = some c → wikilink b.data <:+: c) →
    addBacklinksToZettels b rs W = W := by
  induction rs with
  | nil => intro W _; rfl
  | cons r0 t ih =>
    intro W h
    rw [addBacklinksToZettels_cons,
      backlinkStep_id_of_linked b W r0 (h r0 (List.mem_cons_self r0 t)),
      ih W (fun r hr => h r (List.mem_cons_of_mem r0 hr))]

theorem addBacklinks_idem (b : String) (rs : List RelatedNoteRes) (V : Vault) :
    addBacklinksToZettels b rs (addBacklinksToZettels b rs V)
      = addBacklinksToZettels b rs V :=
  addBacklinks_id_of_linked b rs _ (fun r hr => addBacklinks_establish b rs V r hr)

theorem addBacklinks_content_at (b : String) (rs : List RelatedNoteRes)
    (V : Vault) (r : RelatedNoteRes) (hr : r ∈ rs)
    (hnodup : (rs.map (fun x => x.note.path)).Nodup)
    (c : List Char) (hc : V r.note.path = some c)
    (hninf : ¬ wikilink b.data <:+: c) :
    addBacklinksToZettels b rs V r.note.path
      = some (replaceLinkedSection c (backlinkLine b r)) := by
  obtain ⟨s, t, rfl⟩ := List.append_of_mem hr
  have hmap : ((s ++ r :: t).map (fun x => x.note.path))
      = s.map (fun x => x.note.path)
        ++ r.note.path :: t.map (fun x => x.note.path) := by
    simp
  rw [hmap] at hnodup
  rcases List.nodup_append.mp hnodup with ⟨hn1, hn2, hdisj⟩
  have hnotins : r.note.path ∉ s.map (fun x => x.note.path) := by
    intro hmem
    exact hdisj hmem (List.mem_cons_self _ _)
  have hnotint : r.note.path ∉ t.map (fun x => x.note.path) :=
    (List.nodup_cons.mp hn2).1
  have hfs : addBacklinksToZettels b s V r.note.path = V r.note.path :=
    addBacklinks_other b s V r.note.path
      (fun x hx hxp => hnotins (hxp ▸ List.mem_map_of_mem _ hx))
  have hsplit : addBacklinksToZettels b (s ++ r :: t) V
      = addBacklinksToZettels b t (backlinkStep b (addBacklinksToZettels b s V) r) := by
    rw [addBacklinksToZettels, addBacklinksToZettels, addBacklinksToZettels,
      List.foldl_append, List.foldl_cons]
  have hstep : backlinkStep b (addBacklinksToZettels b s V) r r.note.path
      = some (replaceLinkedSection c (backlinkLine b r)) := by
    rw [backlinkStep, hfs, hc]
    dsimp only
    rw [if_neg hninf]
    simp [Vault.write]
  rw [hsplit,
    addBacklinks_other b t _ r.note.path
      (fun x hx hxp => hnotint (hxp ▸ List.mem_map_of_mem _ hx)),
    hstep]

/-- C6 The backlink pass is idempotent: a second run with identical inputs
leaves the vault unchanged, because the guard skips every document already
containing a link to the new note; moreover, for pairwise-distinct related
paths, a related document that did not previously link the new note ends
up — after running the pass twice — holding the inserted backlink exactly
once. -/
theorem addBacklinks_idempotent_single_entry (V : Vault) (b : String)
    (rs : List RelatedNoteRes) :
    addBacklinksToZettels b rs (addBacklinksToZettels b rs V)
      = addBacklinksToZettels b rs V ∧
    ∀ r ∈ rs, (rs.map (fun x => x.note.path)).Nodup →
      ∀ c, V r.note.path = some c →
      ¬ wikilink b.data <:+: c →
      '\n' ∉ b.data →
      countOccur (wikilink b.data) (backlinkLine b r) = 1 →
      (addBacklinksToZettels b rs (addBacklinksToZettels b rs V) r.note.path
          = some (replaceLinkedSection c (backlinkLine b r)) ∧
        countOccur (wikilink b.data)
          (replaceLinkedSection c (backlinkLine b r)) = 1) := by
  refine ⟨addBacklinks_idem b rs V, ?_⟩
  intro r hr hnodup c hc hninf hnl hcnt
  refine ⟨?_, countOccur_replaceLinkedSection c (backlinkLine b r) hnl hninf hcnt⟩
  rw [addBacklinks_idem b rs V]
  exact addBacklinks_content_at b rs V r hr hnodup c hc hninf

/-- Witness for C6 on the one-note vault: two runs of the backlink pass on
the same single relation coincide, and the related document ends up with
exactly one occurrence of the backlink text. -/
theorem addBacklinks_idempotent_single_entry_witness :
    addBacklinksToZettels "n" [demoRel]
        (addBacklinksToZettels "n" [demoRel] demoVault)
      = addBacklinksToZettels "n" [demoRel] demoVault ∧
    addBacklinksToZettels "n" [demoRel]
        (addBacklinksToZettels "n" [demoRel] demoVault) "10 Zettelkasten/r.md"
      = some (replaceLinkedSection "old".data (backlinkLine "n" demoRel)) ∧
    countOccur (wikilink "n".data)
      (replaceLinkedSection "old".data (backlinkLine "n" demoRel)) = 1 := by
  have hbl : backlinkLine "n" demoRel = "- [[n]] (1%)".data := by
    rw [backlinkLine]
    have h2 : jsRound (demoRel.relevance * 100) = 1 := by
      rw [jsRound]
      norm_num [demoRel]
    have h1 : intChars (jsRound (demoRel.relevance * 100)) = ['1'] := by
      rw [h2, intChars, if_neg (by omega)]
      show natDigits (1 : Int).toNat = ['1']
      rw [show ((1 : Int)).toNat = 1 by norm_num, natDigits, dif_pos (by omega)]
    rw [h1]
    rw [show demoRel.reason = "" from rfl]
    decide
  have hcnt : countOccur (wikilink "n".data) (backlinkLine "n" demoRel) = 1 := by
    rw [hbl]
    decide
  obtain ⟨h1, h2⟩ := addBacklinks_idempotent_single_entry demoVault "n" [demoRel]
  obtain ⟨h3, h4⟩ := h2 demoRel (by simp) (by simp) "old".data
    (by decide) (by decide) (by decide) hcnt
  exact ⟨h1, h3, h4⟩

end ZFB
